import Mathlib

/-!
Shallow embedding of `src/tools/project.js` (the dependency-state coordinator
of a source-based package manager).  JavaScript objects used as string-keyed
maps are embedded as association lists in insertion order (JS objects keep
string-key insertion order and cannot hold duplicate keys); `null` values are
embedded as `Option.none`.  Side effects (file writes, resolver and package
store invocations, console output) are made explicit as a trace of `Effect`
values returned next to each operation's result, and thrown JS exceptions are
returned as `Option String` error components.
-/

namespace Meteor

/-- One observable side effect of an operation: a write of the
`.meteor/versions` file, a write of the `.meteor/packages` file, an
invocation of the constraint resolver, a package-store materialization
request, or console output. -/
inductive Effect where
  | writeVersions (contents : String)
  | writePackages (lines : List String)
  | resolverCall
  | storeEnsure (name version : String)
  | stderrWrite (msg : String)
  | stdoutWrite (msg : String)
deriving DecidableEq, Repr

/-- True for the effects that write a project file on disk. -/
def Effect.isFileWrite : Effect → Bool
  | .writeVersions _ => true
  | .writePackages _ => true
  | _ => false

/-- A constraint entry pushed onto `allDeps` by `calculateCombinedConstraints`:
`packageName` plus the fields contributed by `utils.parseVersionConstraint`
(or written literally, for release packages and the `ctl` hook).  A missing
JS field (`undefined`) is embedded as the default (`none` / `false`). -/
structure Dep where
  packageName : String
  version : Option String := none
  weak : Bool := false
  exactly : Bool := false
deriving DecidableEq, Repr

/-- The mutable fields of the `Project` singleton (`var Project = function ...`).
`constraints` and `dependencies` are the JS objects embedded as association
lists; the JS initial value `null` of the object-valued fields is embedded as
the empty list / `none`. -/
structure ProjectState where
  rootDir : Option String := none
  constraints : List (String × Option String) := []
  combinedConstraints : Option (List Dep) := none
  dependencies : List (String × Option String) := []
  packageLoader : Option (List (String × Option String)) := none
  appId : Option String := none
  viableDepSource : Bool := false
  depsUpToDate : Bool := false
  muted : Bool := false
deriving DecidableEq, Repr

/-- The fresh `Project` built by the constructor. -/
def initialProject : ProjectState := {}

/-- JS string coercion used when a possibly-`null` value is concatenated into
a message or a file line (`"" + null` is `"null"` in JS). -/
def optStr : Option String → String
  | some s => s
  | none => "null"

/-- `trimLine`: drop everything from the first `#` on (the regex
`/^([^#]*)#/` fires only when a `#` is present, but taking the text before
the first `#` is the identity when there is none), then trim surrounding
whitespace. -/
def trimLine (line : String) : String :=
  let line := match line.splitOn "#" with
    | [] => line
    | first :: rest => if rest.isEmpty then line else first
  line.trim

/-- Modelled from the spec: `utils.splitConstraint` lives in
`src/tools/utils.js`, which is not part of the sources; per the spec's
ConstraintStore description a surviving line is split into
`name[@expression]`. -/
def splitConstraint (line : String) : String × Option String :=
  match line.splitOn "@" with
  | [] => (line, none)
  | [n] => (n, none)
  | n :: rest => (n, some (String.intercalate "@" rest))

/-- JS object assignment `m[k] = v`: an existing key keeps its position and
gets the new value, a new key is appended. -/
def setKey (m : List (String × Option String)) (k : String) (v : Option String) :
    List (String × Option String) :=
  if (m.map Prod.fst).contains k then
    m.map (fun p => if p.1 == k then (p.1, v) else p)
  else
    m ++ [(k, v)]

/-- `processPerConstraintLines`: build the name-to-constraint object from the
lines of a `.meteor/packages` or `.meteor/versions` file; later duplicate
names overwrite earlier ones. -/
def processPerConstraintLines (lines : List String) : List (String × Option String) :=
  lines.foldl
    (fun ret line =>
      let line := trimLine line
      if line ≠ "" then setKey ret (splitConstraint line).1 (splitConstraint line).2
      else ret)
    []

/-- Modelled from the spec: `utils.parseVersionConstraint` lives in
`src/tools/utils.js`, which is not part of the sources.  Per the spec's data
model a constraint carries an `expression` that is `null` exactly when the
dependency is unconstrained, so the parse of `null` yields `version = none`
and the parse of an expression string carries it through. -/
def parseVersionConstraint (c : Option String) : Dep → Dep :=
  fun d => { d with version := c }

/-- A dependency declared by one sub-program's source, as handed back by the
external package-source collaborator: `(use.package, use.constraint || null)`
with the `|| null` normalization already applied. -/
abbrev ProgDep := String × Option String

/-- `release.current` when set: whether it is a proper release, and its
package map. -/
structure Release where
  proper : Bool
  packages : List (String × String)
deriving DecidableEq, Repr

/-- The external collaborators consumed by the coordinator: the active
release (`release.current`), the pinned-release flag (`release.explicit`),
the catalog's knowledge of a `ctl` package, the constraint resolver, the
package store's per-package materialization outcome, and the parsed
dependencies of the sub-programs under the programs directory. -/
structure Env where
  releaseCurrent : Option Release
  releaseExplicit : Bool
  catalogHasCtl : Bool
  resolve : List Dep → List (String × Option String) → Except String (List (String × String))
  downloadOk : String → String → Bool
  programDeps : List ProgDep

/-- `calculateCombinedConstraints`: own constraints, then one entry per
sub-program dependency, then a weak exact constraint per release package,
then — only when the catalog exposes `ctl` — the implicit unconstrained
`ctl` dependency. -/
def calculateCombinedConstraints (constraints : List (String × Option String))
    (programDeps : List ProgDep) (releasePackages : List (String × String))
    (catalogHasCtl : Bool) : List Dep :=
  (constraints.map fun p => parseVersionConstraint p.2 { packageName := p.1 }) ++
  (programDeps.map fun p => parseVersionConstraint p.2 { packageName := p.1 }) ++
  (releasePackages.map fun p =>
    { packageName := p.1, version := some p.2, weak := true, exactly := true }) ++
  (if catalogHasCtl then [{ packageName := "ctl", version := none }] else [])

/-- Stable insertion of a string into a sorted list, using the string order
(`lines.sort()` compares strings). -/
def insertLine (x : String) : List String → List String
  | [] => [x]
  | y :: ys => if y < x then y :: insertLine x ys else x :: y :: ys

/-- `lines.sort()`: sort the lines by string comparison. -/
def sortLines (l : List String) : List String := l.foldr insertLine []

/-- `_recordVersions`: skipped entirely when the project is pinned to an
explicit release and the caller did not pass `alwaysRecord`; otherwise the
dependency map is serialized one `name@version\n` line per entry, the lines
are sorted, and the concatenation is written to `.meteor/versions`. -/
def recordVersions (releaseExplicit : Bool) (alwaysRecord : Bool)
    (dependencies : List (String × Option String)) : List Effect :=
  if releaseExplicit && !alwaysRecord then []
  else
    [Effect.writeVersions
      (String.join (sortLines (dependencies.map fun p => p.1 ++ "@" ++ optStr p.2 ++ "\n")))]

/-- `_ensurePackagesExistOnDisk`: walk the requested versions in order, ask
the package store for each one, and collect the successes; a failed download
is logged and skipped, never fatal to the loop. -/
def ensurePackagesExistOnDisk (downloadOk : String → String → Bool) :
    List (String × String) → List (String × String) × List Effect
  | [] => ([], [])
  | p :: rest =>
    let r := ensurePackagesExistOnDisk downloadOk rest
    if downloadOk p.1 p.2 then (p :: r.1, Effect.storeEnsure p.1 p.2 :: r.2)
    else (r.1, Effect.storeEnsure p.1 p.2 :: r.2)

/-- The resolver's output converted to the stored dependency-map shape
(every resolved version is a concrete string). -/
def toDeps (newVersions : List (String × String)) : List (String × Option String) :=
  newVersions.map fun p => (p.1, some p.2)

/-- `_.isEqual` on two string-keyed JS objects: the same keys with the same
values. -/
def objEqual (a b : List (String × Option String)) : Bool :=
  (a.map Prod.fst).all (fun k => a.lookup k == b.lookup k) &&
  (b.map Prod.fst).all (fun k => a.lookup k == b.lookup k)

/-- The `{success, downloaded}` record returned by `setVersions`, packaged
together with the mutated project state and the emitted effects. -/
structure SetVersionsResult where
  success : Bool
  downloaded : List (String × String)
  state : ProjectState
  effects : List Effect
deriving DecidableEq, Repr

/-- `setVersions`: materialize the new version map; if the count of
downloaded packages differs from the count requested, fail without touching
anything; otherwise update `self.dependencies` and rewrite the versions file
unless the map is unchanged and `alwaysRecord` was not requested. -/
def setVersions (releaseExplicit : Bool) (downloadOk : String → String → Bool)
    (st : ProjectState) (newVersions : List (String × String)) (alwaysRecord : Bool) :
    SetVersionsResult :=
  let dl := ensurePackagesExistOnDisk downloadOk newVersions
  if dl.1.length ≠ newVersions.length then
    ⟨false, dl.1, st, dl.2⟩
  else if alwaysRecord || !objEqual (toDeps newVersions) st.dependencies then
    ⟨true, dl.1, { st with dependencies := toDeps newVersions },
      dl.2 ++ recordVersions releaseExplicit alwaysRecord (toDeps newVersions)⟩
  else
    ⟨true, dl.1, st, dl.2⟩

/-- The options record of `showPackageChanges`. -/
structure ShowOptions where
  skipPackages : Option (List String) := none
  onDiskPackages : Option (List (String × String)) := none
deriving DecidableEq, Repr

/-- The outcome of `showPackageChanges`: its return code, the accumulated
message log, and the console effects. -/
structure ShowResult where
  retcode : Nat
  log : List String
  effects : List Effect
deriving DecidableEq, Repr

/-- `_.contains(options.skipPackages, name)` with a possibly-`undefined`
list. -/
def containsOpt (l : Option (List String)) (x : String) : Bool :=
  match l with
  | none => false
  | some l => l.contains x

/-- The `removed` pass of `showPackageChanges`: keys of the old map missing
from the new map, minus the skip list, each logged in old-map order. -/
def removedMessages (versions : List (String × Option String))
    (newVersions : List (String × String)) (skip : Option (List String)) : List String :=
  (((versions.map Prod.fst).filter
      (fun k => !((newVersions.map Prod.fst).contains k))).filter
      (fun k => !containsOpt skip k)).map
    (fun k => "removed dependency on " ++ k)

/-- One iteration of the `_.each(newVersions, ...)` loop of
`showPackageChanges`, threading `(failed, messageLog, console effects)`.
After a failure every further iteration returns immediately; an unchanged
package is skipped; a package whose materialized build is missing (or whose
on-disk entry is falsy or differs from the target version) writes the
stderr complaint and sets `failed`; a skip-listed package is silently
omitted; otherwise an upgraded or added message is logged. -/
def showStep (versions : List (String × Option String)) (options : ShowOptions)
    (acc : Bool × List String × List Effect) (p : String × String) :
    Bool × List String × List Effect :=
  if acc.1 then acc
  else if versions.lookup p.1 == some (some p.2) then acc
  else if (match options.onDiskPackages with
           | none => false
           | some od =>
             match od.lookup p.1 with
             | none => true
             | some v => v == "" || v != p.2) then
    (true, acc.2.1,
      acc.2.2 ++ [Effect.stderrWrite
        ("Package " ++ p.1 ++ " has no compatible build for version " ++ p.2 ++ "\n")])
  else if containsOpt options.skipPackages p.1 then acc
  else
    match versions.lookup p.1 with
    | some v =>
      (acc.1, acc.2.1 ++
        ["  upgraded " ++ p.1 ++ " from version " ++ optStr v ++ " to version " ++ p.2],
        acc.2.2)
    | none =>
      (acc.1, acc.2.1 ++ ["  added " ++ p.1 ++ " at version " ++ p.2], acc.2.2)

/-- `showPackageChanges`: log removals, then walk the new map classifying
each entry; on failure return 1 without printing the log, otherwise print
the log (unless the project is muted) and return 0. -/
def showPackageChanges (muted : Bool) (versions : List (String × Option String))
    (newVersions : List (String × String)) (options : ShowOptions) : ShowResult :=
  let log0 := removedMessages versions newVersions options.skipPackages
  let acc := newVersions.foldl (showStep versions options) (false, log0, [])
  if acc.1 then ⟨1, acc.2.1, acc.2.2⟩
  else ⟨0, acc.2.1, acc.2.2 ++ (if !muted then acc.2.1.map Effect.stdoutWrite else [])⟩

/-- The outcome of `_ensureDepsUpToDate`: the message of the thrown
exception if any, the project state after the call, and the emitted
effects. -/
structure EnsureResult where
  error : Option String
  state : ProjectState
  effects : List Effect
deriving DecidableEq, Repr

/-- The combined constraints computed inside `_ensureDepsUpToDate`: release
packages are taken from the current release only when it is a proper
release. -/
def combinedOf (env : Env) (rel : Release) (st : ProjectState) : List Dep :=
  calculateCombinedConstraints st.constraints env.programDeps
    (if rel.proper then rel.packages else []) env.catalogHasCtl

/-- The stale branch of `_ensureDepsUpToDate`: clear `viableDepSource`,
combine constraints, resolve (propagating a resolver exception), set the
versions, report the changes, and either throw on a materialization
shortfall or commit the loader and clear the staleness flag. -/
def ensureStale (env : Env) (rel : Release) (st : ProjectState) : EnsureResult :=
  let combined := combinedOf env rel st
  let st2 : ProjectState :=
    { st with viableDepSource := false, combinedConstraints := some combined }
  match env.resolve combined st.dependencies with
  | Except.error e => ⟨some e, st2, [Effect.resolverCall]⟩
  | Except.ok newVersions =>
    let sv := setVersions env.releaseExplicit env.downloadOk st2 newVersions false
    let sr := showPackageChanges sv.state.muted st2.dependencies newVersions
      ⟨none, some sv.downloaded⟩
    if sv.success then
      let committed : ProjectState :=
        { sv.state with
          packageLoader := some (toDeps newVersions)
          depsUpToDate := true
          viableDepSource := true }
      ⟨none, committed, Effect.resolverCall :: (sv.effects ++ sr.effects)⟩
    else
      ⟨some "Could not install all the requested packages.", sv.state,
        Effect.resolverCall :: (sv.effects ++ sr.effects)⟩

/-- `_ensureDepsUpToDate`: throw if no release has been computed, return
immediately if the dependencies are up to date, otherwise run the stale
branch. -/
def ensureDepsUpToDate (env : Env) (st : ProjectState) : EnsureResult :=
  match env.releaseCurrent with
  | none =>
    ⟨some "need to compute release before computing project dependencies.", st, []⟩
  | some rel =>
    if st.depsUpToDate then ⟨none, st, []⟩
    else ensureStale env rel st

/-- `setMuted`. -/
def setMuted (st : ProjectState) (muted : Bool) : ProjectState :=
  { st with muted := muted }

/-- `setRootDir`: bind the root directory, reload the constraints and the
previous dependency solution from the given file contents, invalidate every
derived field, make sure an app identifier exists, and mark the project
viable as a dependency source.  The contents of the two project files and
the app identifier on disk are inputs of the embedding. -/
def setRootDir (st : ProjectState) (rootDir : String)
    (constraintLines versionsLines : List String) (appIdOnDisk : String) : ProjectState :=
  { st with
    rootDir := some rootDir
    constraints := processPerConstraintLines constraintLines
    combinedConstraints := none
    packageLoader := none
    dependencies := processPerConstraintLines versionsLines
    appId := some appIdOnDisk
    depsUpToDate := false
    viableDepSource := true }

/-- The add loop of `forceEditPackages`: for each name, skip it when
`_.contains(self.constraints, name)` holds — underscore's `contains` on an
object tests membership among the *values* of the object, so the test
compares `name` against the stored constraint expressions; otherwise push a
separator (the guard `!self.constraints.length` is always truthy because a
plain object has no `length` property, so a blank line is pushed whenever
the file is nonempty), push the raw name, and record a `null` constraint. -/
def forceAdd (names : List String) (cs : List (String × Option String))
    (lines : List String) : List (String × Option String) × List String :=
  names.foldl
    (fun acc name =>
      if (acc.1.map Prod.snd).contains (some name) then acc
      else
        let lines := if acc.2.length ≠ 0 then acc.2 ++ ["", name] else acc.2 ++ [name]
        (setKey acc.1 name none, lines))
    (cs, lines)

/-- `_removePackageRecords`: delete each name from the in-memory constraint
set, then drop every file line whose leading `name@...` token is one of the
names, and rewrite the file. -/
def removePackageRecords (cs : List (String × Option String)) (fileLines : List String)
    (names : List String) : List (String × Option String) × List String :=
  (names.foldl (fun m name => m.filter (fun p => p.1 != name)) cs,
   fileLines.filter
     (fun line => !(names.contains (((trimLine line).splitOn "@").headD ""))))

/-- `forceEditPackages`: on `"add"` run the add loop and rewrite the
packages file; on `"remove"` run `_removePackageRecords`; in every case
invalidate the derived values.  `fileLines` is the packages file read from
disk at entry. -/
def forceEditPackages (st : ProjectState) (fileLines : List String)
    (names : List String) (operation : String) : ProjectState × List Effect :=
  if operation == "add" then
    let r := forceAdd names st.constraints fileLines
    ({ st with constraints := r.1, depsUpToDate := false },
     [Effect.writePackages r.2])
  else if operation == "remove" then
    let r := removePackageRecords st.constraints fileLines names
    ({ st with constraints := r.1, depsUpToDate := false },
     [Effect.writePackages r.2])
  else
    ({ st with depsUpToDate := false }, [])

/-- `removePackages`: remove the records, force a recompute (whose thrown
exception, if any, propagates), and record the recomputed versions. -/
def removePackages (env : Env) (st : ProjectState) (fileLines : List String)
    (names : List String) : EnsureResult :=
  let r0 := removePackageRecords st.constraints fileLines names
  let st1 : ProjectState := { st with constraints := r0.1, depsUpToDate := false }
  let r := ensureDepsUpToDate env st1
  match r.error with
  | some e => ⟨some e, r.state, Effect.writePackages r0.2 :: r.effects⟩
  | none =>
    ⟨none, r.state,
      Effect.writePackages r0.2 :: r.effects ++
        recordVersions env.releaseExplicit false r.state.dependencies⟩

/-- The project states reachable from the freshly constructed singleton by
the public operations of the file.  Every state in this relation is
quiescent: each constructor is one complete (possibly throwing) call, so no
recompute is in flight in any reachable state. -/
inductive Reachable : ProjectState → Prop where
  | init : Reachable initialProject
  | muted (m : Bool) {s : ProjectState} : Reachable s → Reachable (setMuted s m)
  | rootDir (dir : String) (constraintLines versionsLines : List String)
      (appIdOnDisk : String) {s : ProjectState} :
      Reachable s → Reachable (setRootDir s dir constraintLines versionsLines appIdOnDisk)
  | forceEdit (fileLines names : List String) (operation : String) {s : ProjectState} :
      Reachable s → Reachable (forceEditPackages s fileLines names operation).1
  | remove (env : Env) (fileLines names : List String) {s : ProjectState} :
      Reachable s → Reachable (removePackages env s fileLines names).state
  | setV (releaseExplicit : Bool) (downloadOk : String → String → Bool)
      (newVersions : List (String × String)) (alwaysRecord : Bool) {s : ProjectState} :
      Reachable s → Reachable (setVersions releaseExplicit downloadOk s newVersions alwaysRecord).state
  | ensure (env : Env) {s : ProjectState} :
      Reachable s → Reachable (ensureDepsUpToDate env s).state

/-- A minimal healthy environment: an improper release with no packages, a
resolver that returns the empty solution, and a package store that always
succeeds. -/
def envOk : Env :=
  { releaseCurrent := some ⟨false, []⟩, releaseExplicit := false, catalogHasCtl := false,
    resolve := fun _ _ => Except.ok [], downloadOk := fun _ _ => true,
    programDeps := [] }

/-- An environment whose resolver picks the single package `x@1` but whose
package store can never materialize anything. -/
def shortfallEnv : Env :=
  { releaseCurrent := some ⟨false, []⟩, releaseExplicit := false, catalogHasCtl := false,
    resolve := fun _ _ => Except.ok [("x", "1")], downloadOk := fun _ _ => false,
    programDeps := [] }

/-! Helper lemmas about the embedded operations. -/

/-- The successfully downloaded packages are exactly the requested ones the
store could materialize, in request order. -/
theorem ensurePackages_fst (f : String → String → Bool) (l : List (String × String)) :
    (ensurePackagesExistOnDisk f l).1 = l.filter (fun p => f p.1 p.2) := by
  induction l with
  | nil => rfl
  | cons p rest ih =>
    simp only [ensurePackagesExistOnDisk, List.filter_cons]
    cases h : f p.1 p.2 <;> simp [h, ih]

/-- Materialization emits exactly one store request per requested package. -/
theorem ensurePackages_snd (f : String → String → Bool) (l : List (String × String)) :
    (ensurePackagesExistOnDisk f l).2 = l.map (fun p => Effect.storeEnsure p.1 p.2) := by
  induction l with
  | nil => rfl
  | cons p rest ih =>
    simp only [ensurePackagesExistOnDisk]
    cases h : f p.1 p.2 <;> simp [h, ih]

/-- One reporting step never writes a project file. -/
theorem showStep_no_write (v : List (String × Option String)) (o : ShowOptions)
    (acc : Bool × List String × List Effect) (p : String × String)
    (h : ∀ e ∈ acc.2.2, e.isFileWrite = false) :
    ∀ e ∈ (showStep v o acc p).2.2, e.isFileWrite = false := by
  unfold showStep
  repeat' split
  all_goals intro e he
  all_goals
    first
      | exact h e he
      | (rcases List.mem_append.mp he with h1 | h2
         · exact h e h1
         · rcases List.mem_singleton.mp h2 with rfl
           rfl)

/-- The reporting loop never writes a project file. -/
theorem foldl_showStep_no_write (v : List (String × Option String)) (o : ShowOptions)
    (l : List (String × String)) (acc : Bool × List String × List Effect)
    (h : ∀ e ∈ acc.2.2, e.isFileWrite = false) :
    ∀ e ∈ (l.foldl (showStep v o) acc).2.2, e.isFileWrite = false := by
  induction l generalizing acc with
  | nil => exact h
  | cons p rest ih => exact ih _ (showStep_no_write v o acc p h)

/-- `showPackageChanges` only talks to the console: it never writes a
project file. -/
theorem showPackageChanges_no_write (m : Bool) (v : List (String × Option String))
    (n : List (String × String)) (o : ShowOptions) :
    ∀ e ∈ (showPackageChanges m v n o).effects, e.isFileWrite = false := by
  intro e
  simp only [showPackageChanges]
  split
  · exact foldl_showStep_no_write v o n _ (by intro x hx; simp at hx) e
  · intro he
    rcases List.mem_append.mp he with h1 | h2
    · exact foldl_showStep_no_write v o n _ (by intro x hx; simp at hx) e h1
    · split at h2
      · obtain ⟨msg, _, rfl⟩ := List.mem_map.mp h2
        rfl
      · simp at h2

/-- A materialization shortfall makes `setVersions` return early: failure,
untouched state, and only the store-request effects. -/
theorem setVersions_shortfall (releaseExplicit : Bool) (downloadOk : String → String → Bool)
    (st : ProjectState) (newVersions : List (String × String)) (alwaysRecord : Bool)
    (hfail : ∃ p ∈ newVersions, downloadOk p.1 p.2 = false) :
    setVersions releaseExplicit downloadOk st newVersions alwaysRecord =
      ⟨false, (ensurePackagesExistOnDisk downloadOk newVersions).1, st,
        (ensurePackagesExistOnDisk downloadOk newVersions).2⟩ := by
  have hlt : ((ensurePackagesExistOnDisk downloadOk newVersions).1).length <
      newVersions.length := by
    rw [ensurePackages_fst]
    refine List.length_filter_lt_length_iff_exists.mpr ?_
    obtain ⟨p, hp, hf⟩ := hfail
    exact ⟨p, hp, by simp [hf]⟩
  simp [setVersions, Nat.ne_of_lt hlt]

/-- `setVersions` never touches the `viableDepSource` flag. -/
theorem setVersions_state_viable (releaseExplicit : Bool) (downloadOk : String → String → Bool)
    (st : ProjectState) (newVersions : List (String × String)) (alwaysRecord : Bool) :
    (setVersions releaseExplicit downloadOk st newVersions alwaysRecord).state.viableDepSource
      = st.viableDepSource := by
  simp only [setVersions]
  split
  · rfl
  · split <;> rfl

/-- A recompute whose stale branch ran to a successful commit leaves the
staleness flag cleared; every other outcome of the stale branch reports an
error. -/
theorem ensureStale_error_none_fresh (env : Env) (rel : Release) (st : ProjectState)
    (h : (ensureStale env rel st).error = none) :
    (ensureStale env rel st).state.depsUpToDate = true := by
  revert h
  simp only [ensureStale]
  split
  · intro h; simp at h
  · split
    · intro _; rfl
    · intro h; simp at h

/-! The claims. -/

/-- C8: for every dependencies map, `_recordVersions` is a no-op (the
on-disk versions file stays byte-for-byte unchanged) when the project is
pinned to an explicit release and `alwaysRecord` was not given; when
`alwaysRecord` is set or the release is not explicit the file is written. -/
theorem recordVersions_explicit_release_guard
    (dependencies : List (String × Option String)) (releaseExplicit alwaysRecord : Bool) :
    (releaseExplicit = true → alwaysRecord = false →
      recordVersions releaseExplicit alwaysRecord dependencies = []) ∧
    (alwaysRecord = true ∨ releaseExplicit = false →
      recordVersions releaseExplicit alwaysRecord dependencies =
        [Effect.writeVersions (String.join (sortLines
          (dependencies.map fun p => p.1 ++ "@" ++ optStr p.2 ++ "\n")))]) := by
  constructor
  · rintro rfl rfl
    rfl
  · rintro (rfl | rfl) <;> simp [recordVersions]

/-- C8 witness: with an explicit release and no force flag nothing is
written for the map `{a: 1}`; without an explicit release the sorted ledger
line is written. -/
theorem recordVersions_explicit_release_guard_witness :
    recordVersions true false [("a", some "1")] = [] ∧
    recordVersions false false [("a", some "1")] =
      [Effect.writeVersions (String.join (sortLines
        ([(("a" : String), some "1")].map fun p => p.1 ++ "@" ++ optStr p.2 ++ "\n")))] :=
  ⟨(recordVersions_explicit_release_guard [("a", some "1")] true false).1 rfl rfl,
   (recordVersions_explicit_release_guard [("a", some "1")] false false).2 (Or.inr rfl)⟩

/-- C10: the return code and the classification log of `showPackageChanges`
are identical in two runs that differ only in the project's muted flag;
muting changes only whether the accumulated messages are printed. -/
theorem showPackageChanges_muted_oblivious (versions : List (String × Option String))
    (newVersions : List (String × String)) (options : ShowOptions) (m1 m2 : Bool) :
    (showPackageChanges m1 versions newVersions options).retcode =
      (showPackageChanges m2 versions newVersions options).retcode ∧
    (showPackageChanges m1 versions newVersions options).log =
      (showPackageChanges m2 versions newVersions options).log := by
  simp only [showPackageChanges]
  split <;> simp

/-- C6: with old map `{a:1, b:1}`, new map `{a:2, c:1}`, no skip list and no
on-disk availability map, the reporter logs exactly one removal (`b`), one
upgrade (`a` from 1 to 2) and one addition (`c`), in that order, the removal
first, and succeeds. -/
theorem showPackageChanges_diff_classification :
    (showPackageChanges false [("a", some "1"), ("b", some "1")] [("a", "2"), ("c", "1")]
        ⟨none, none⟩).log =
      ["removed dependency on b",
       "  upgraded a from version 1 to version 2",
       "  added c at version 1"] ∧
    (showPackageChanges false [("a", some "1"), ("b", some "1")] [("a", "2"), ("c", "1")]
        ⟨none, none⟩).retcode = 0 := by
  decide

/-- C4 (code-bug evaluation): with `a` already present as a key of the
constraint set (with constraint `1.0`), `forceEditPackages(["a"], "add")`
nevertheless appends a duplicate raw `a` line (preceded by the blank
separator the always-truthy length guard pushes) and overwrites the stored
constraint with `null`, because the duplicate guard
`_.contains(self.constraints, "a")` tests the constraint map's values, not
its keys. -/
theorem forceEditPackages_add_duplicates_existing_key :
    ((forceEditPackages { initialProject with constraints := [("a", some "1.0")] }
        ["a@1.0"] ["a"] "add").1.constraints = [("a", none)]) ∧
    ((forceEditPackages { initialProject with constraints := [("a", some "1.0")] }
        ["a@1.0"] ["a"] "add").2 = [Effect.writePackages ["a@1.0", "", "a"]]) := by
  decide

/-- C7 counterexample: a project whose dependencies are up to date still
throws the context-missing error from `_ensureDepsUpToDate` when no release
has been computed, because the release check precedes the staleness check —
refuting the claim that the call raises no error regardless of whether an
active release context is available. -/
theorem ensure_fresh_throws_without_release :
    ({ initialProject with depsUpToDate := true } : ProjectState).depsUpToDate = true ∧
    (ensureDepsUpToDate
      { releaseCurrent := none, releaseExplicit := false, catalogHasCtl := false,
        resolve := fun _ _ => Except.ok [], downloadOk := fun _ _ => true,
        programDeps := [] }
      { initialProject with depsUpToDate := true }).error =
      some "need to compute release before computing project dependencies." := by
  exact ⟨rfl, rfl⟩

/-- C7 amended: when the dependencies are up to date and an active release
context is available, `_ensureDepsUpToDate` is a no-op — no mutation, no
effect, no error; when no release context is available it throws the
context-missing error even though the project is fresh, still mutating
nothing and performing no effect. -/
theorem ensure_fresh_noop_with_release (env : Env) (st : ProjectState) (rel : Release)
    (hfresh : st.depsUpToDate = true) :
    (env.releaseCurrent = some rel → ensureDepsUpToDate env st = ⟨none, st, []⟩) ∧
    (env.releaseCurrent = none →
      ensureDepsUpToDate env st =
        ⟨some "need to compute release before computing project dependencies.",
          st, []⟩) := by
  constructor
  · intro h
    simp [ensureDepsUpToDate, h, hfresh]
  · intro h
    simp [ensureDepsUpToDate, h]

/-- C7 witness: a fresh project together with a trivial release context on
which the recompute is skipped entirely. -/
theorem ensure_fresh_noop_with_release_witness :
    ({ initialProject with depsUpToDate := true } : ProjectState).depsUpToDate = true ∧
    ensureDepsUpToDate
        { releaseCurrent := some ⟨false, []⟩, releaseExplicit := false,
          catalogHasCtl := false, resolve := fun _ _ => Except.ok [],
          downloadOk := fun _ _ => true, programDeps := [] }
        { initialProject with depsUpToDate := true } =
      ⟨none, { initialProject with depsUpToDate := true }, []⟩ :=
  ⟨rfl,
    (ensure_fresh_noop_with_release _ _ ⟨false, []⟩ rfl).1 rfl⟩

/-- C5 counterexample: a project whose own constraint set does not contain
`ctl` but one of whose sub-programs declares an unconstrained dependency on
`ctl`: with the catalog exposing `ctl`, `calculateCombinedConstraints`
contains the unconstrained `ctl` dependency twice, not exactly once. -/
theorem ctl_hook_twice_with_program_dep :
    ((([] : List (String × Option String)).map Prod.fst).contains "ctl" = false) ∧
    ((calculateCombinedConstraints [] [("ctl", none)] [] true).filter
        (fun d => d.packageName == "ctl" && d.version == none)).length = 2 := by
  decide

/-- C5 amended: for every project whose own constraint set does not contain
`ctl` and none of whose sub-programs declares an unconstrained dependency on
`ctl`, the combined constraints contain an unconstrained dependency on `ctl`
exactly once when the catalog exposes `ctl`, and none at all when it does
not (release packages always carry a concrete version, so they never
contribute an unconstrained entry). -/
theorem ctl_hook_exactly_once (cs : List (String × Option String))
    (progs : List ProgDep) (rel : List (String × String))
    (hcs : ∀ p ∈ cs, p.1 ≠ "ctl")
    (hprogs : ∀ p ∈ progs, p.1 = "ctl" → p.2 ≠ none) :
    ((calculateCombinedConstraints cs progs rel true).filter
        (fun d => d.packageName == "ctl" && d.version == none)).length = 1 ∧
    ((calculateCombinedConstraints cs progs rel false).filter
        (fun d => d.packageName == "ctl" && d.version == none)).length = 0 := by
  have hcs0 : (cs.map fun p => parseVersionConstraint p.2 { packageName := p.1 }).filter
      (fun d => d.packageName == "ctl" && d.version == none) = [] := by
    refine List.filter_eq_nil_iff.mpr ?_
    intro d hd
    obtain ⟨p, hp, rfl⟩ := List.mem_map.mp hd
    simp [parseVersionConstraint, hcs p hp]
  have hprogs0 : (progs.map fun p => parseVersionConstraint p.2 { packageName := p.1 }).filter
      (fun d => d.packageName == "ctl" && d.version == none) = [] := by
    refine List.filter_eq_nil_iff.mpr ?_
    intro d hd
    obtain ⟨p, hp, rfl⟩ := List.mem_map.mp hd
    simp only [parseVersionConstraint, Bool.and_eq_true, beq_iff_eq]
    rintro ⟨h1, h2⟩
    exact hprogs p hp h1 h2
  have hrel0 : (rel.map fun p =>
      ({ packageName := p.1, version := some p.2, weak := true, exactly := true } : Dep)).filter
      (fun d => d.packageName == "ctl" && d.version == none) = [] := by
    refine List.filter_eq_nil_iff.mpr ?_
    intro d hd
    obtain ⟨p, hp, rfl⟩ := List.mem_map.mp hd
    simp
  constructor <;>
    simp [calculateCombinedConstraints, List.filter_append, hcs0, hprogs0, hrel0]

/-- C5 witness: a project with an unrelated own constraint, an unrelated
constrained program dependency and one release package. -/
theorem ctl_hook_exactly_once_witness :
    ((calculateCombinedConstraints [("foo", none)] [("bar", some "1")] [("baz", "2")]
        true).filter (fun d => d.packageName == "ctl" && d.version == none)).length = 1 ∧
    ((calculateCombinedConstraints [("foo", none)] [("bar", some "1")] [("baz", "2")]
        false).filter (fun d => d.packageName == "ctl" && d.version == none)).length = 0 :=
  ctl_hook_exactly_once [("foo", none)] [("bar", some "1")] [("baz", "2")]
    (by decide) (by decide)

/-- C9: adding a package name not already present with
`forceEditPackages(["a"], "add")` and then removing it with
`forceEditPackages(["a"], "remove")` restores the in-memory constraint set
exactly, whatever the packages file contained at each of the two calls. -/
theorem forceEdit_add_remove_restores (st : ProjectState) (l1 l2 : List String)
    (h : "a" ∉ st.constraints.map Prod.fst) :
    ((forceEditPackages (forceEditPackages st l1 ["a"] "add").1 l2
        ["a"] "remove").1).constraints = st.constraints := by
  have hpt : ∀ p ∈ st.constraints, (p.1 != "a") = true := by
    intro p hp
    have hne : p.1 ≠ "a" := by
      intro he
      exact h (he ▸ List.mem_map_of_mem Prod.fst hp)
    simp [hne]
  have hgoal : ((forceAdd ["a"] st.constraints l1).1).filter (fun p => p.1 != "a")
      = st.constraints := by
    simp only [forceAdd, List.foldl_cons, List.foldl_nil]
    cases hv : (st.constraints.map Prod.snd).contains (some "a") with
    | true => simp [hv, List.filter_eq_self.mpr hpt]
    | false =>
      have hk : ((st.constraints.map Prod.fst).contains "a") = false := by
        simpa using h
      simp only [hv, Bool.false_eq_true, if_false, setKey, hk]
      simp [List.filter_append, List.filter_eq_self.mpr hpt]
  simp [forceEditPackages, removePackageRecords, hgoal]

/-- C9 witness: a constraint set holding only `b` passes through the
add-then-remove round trip unchanged. -/
theorem forceEdit_add_remove_restores_witness :
    ("a" ∉ [(("b" : String), some "x")].map Prod.fst) ∧
    ((forceEditPackages
        (forceEditPackages { initialProject with constraints := [("b", some "x")] }
          [] ["a"] "add").1 [] ["a"] "remove").1).constraints = [("b", some "x")] :=
  ⟨by decide,
   forceEdit_add_remove_restores { initialProject with constraints := [("b", some "x")] }
     [] [] (by decide)⟩

/-- C2: once a call to `_ensureDepsUpToDate` has completed without error, the
staleness flag is cleared, and a second call against the same environment
returns immediately: the same state, no error, and not a single resolver,
store or file-system effect. -/
theorem ensure_idempotent (env : Env) (st : ProjectState)
    (h : (ensureDepsUpToDate env st).error = none) :
    (ensureDepsUpToDate env st).state.depsUpToDate = true ∧
    ensureDepsUpToDate env (ensureDepsUpToDate env st).state =
      ⟨none, (ensureDepsUpToDate env st).state, []⟩ := by
  have hfresh : (ensureDepsUpToDate env st).state.depsUpToDate = true := by
    cases henv : env.releaseCurrent with
    | none => simp [ensureDepsUpToDate, henv] at h
    | some rel =>
      by_cases hf : st.depsUpToDate
      · simp [ensureDepsUpToDate, henv, hf]
      · have heq : ensureDepsUpToDate env st = ensureStale env rel st := by
          simp [ensureDepsUpToDate, henv, hf]
        rw [heq] at h ⊢
        exact ensureStale_error_none_fresh env rel st h
  refine ⟨hfresh, ?_⟩
  cases henv : env.releaseCurrent with
  | none => simp [ensureDepsUpToDate, henv] at h
  | some rel =>
    generalize (ensureDepsUpToDate env st).state = S at hfresh ⊢
    simp [ensureDepsUpToDate, henv, hfresh]

/-- C2 witness: in the minimal healthy environment the first recompute on a
fresh project succeeds and the second call is the identity with no
effects. -/
theorem ensure_idempotent_witness :
    (ensureDepsUpToDate envOk initialProject).error = none ∧
    ensureDepsUpToDate envOk (ensureDepsUpToDate envOk initialProject).state =
      ⟨none, (ensureDepsUpToDate envOk initialProject).state, []⟩ :=
  ⟨rfl, (ensure_idempotent envOk initialProject rfl).2⟩

/-- C1: when at least one resolved package fails to materialize,
`setVersions` returns `success = false` leaving the state — in particular
the in-memory dependencies map — untouched and writing no project file, and
the surrounding `_ensureDepsUpToDate` throws the install error with the
dependencies map unchanged, the staleness flag still false, and no file
write among its effects. -/
theorem setVersions_shortfall_aborts_commit
    (env : Env) (st : ProjectState) (rel : Release) (newVersions : List (String × String))
    (hrel : env.releaseCurrent = some rel)
    (hstale : st.depsUpToDate = false)
    (hres : env.resolve (combinedOf env rel st) st.dependencies = Except.ok newVersions)
    (hfail : ∃ p ∈ newVersions, env.downloadOk p.1 p.2 = false) :
    (∀ (st' : ProjectState) (alwaysRecord : Bool),
      (setVersions env.releaseExplicit env.downloadOk st' newVersions alwaysRecord).success
          = false ∧
      (setVersions env.releaseExplicit env.downloadOk st' newVersions alwaysRecord).state
          = st' ∧
      ∀ e ∈ (setVersions env.releaseExplicit env.downloadOk st' newVersions
          alwaysRecord).effects, e.isFileWrite = false) ∧
    ((ensureDepsUpToDate env st).error =
        some "Could not install all the requested packages." ∧
      (ensureDepsUpToDate env st).state.dependencies = st.dependencies ∧
      (ensureDepsUpToDate env st).state.depsUpToDate = false ∧
      ∀ e ∈ (ensureDepsUpToDate env st).effects, e.isFileWrite = false) := by
  have hsv : ∀ (st' : ProjectState) (always : Bool),
      setVersions env.releaseExplicit env.downloadOk st' newVersions always =
        ⟨false, (ensurePackagesExistOnDisk env.downloadOk newVersions).1, st',
          (ensurePackagesExistOnDisk env.downloadOk newVersions).2⟩ :=
    fun st' always => setVersions_shortfall _ _ _ _ _ hfail
  have hstore : ∀ e ∈ (ensurePackagesExistOnDisk env.downloadOk newVersions).2,
      e.isFileWrite = false := by
    rw [ensurePackages_snd]
    intro e he
    obtain ⟨p, _, rfl⟩ := List.mem_map.mp he
    rfl
  refine ⟨fun st' always => ⟨by rw [hsv], by rw [hsv], by rw [hsv]; exact hstore⟩, ?_⟩
  have hens : ensureDepsUpToDate env st = ensureStale env rel st := by
    simp [ensureDepsUpToDate, hrel, hstale]
  have hstaleEq : ensureStale env rel st =
      ⟨some "Could not install all the requested packages.",
        { st with
            viableDepSource := false
            combinedConstraints := some (combinedOf env rel st) },
        Effect.resolverCall ::
          ((ensurePackagesExistOnDisk env.downloadOk newVersions).2 ++
            (showPackageChanges st.muted st.dependencies newVersions
              ⟨none, some (ensurePackagesExistOnDisk env.downloadOk
                newVersions).1⟩).effects)⟩ := by
    simp only [ensureStale, hres, hsv]
    simp
  rw [hens, hstaleEq]
  refine ⟨rfl, rfl, hstale, ?_⟩
  intro e he
  rcases List.mem_cons.mp he with rfl | he2
  · rfl
  · rcases List.mem_append.mp he2 with h1 | h2
    · exact hstore e h1
    · exact showPackageChanges_no_write _ _ _ _ e h2

/-- C1 witness: the shortfall environment resolving to `{x: 1}` with a store
that downloads nothing. -/
theorem setVersions_shortfall_aborts_commit_witness :
    (setVersions false (fun _ _ => false) initialProject [("x", "1")] false).success
        = false ∧
    (ensureDepsUpToDate shortfallEnv initialProject).error =
      some "Could not install all the requested packages." ∧
    (ensureDepsUpToDate shortfallEnv initialProject).state.depsUpToDate = false := by
  have h := setVersions_shortfall_aborts_commit shortfallEnv initialProject ⟨false, []⟩
    [("x", "1")] rfl rfl rfl ⟨("x", "1"), by simp, rfl⟩
  exact ⟨(h.1 initialProject false).1, h.2.1, h.2.2.2.1⟩

/-- C3 counterexample: bind a root directory, then run a recompute whose
materialization fails.  The resulting state is reachable, quiescent (no
recompute is in flight between calls), has its root directory set — and yet
`viableDepSource` is false, refuting the claim that the flag is true again
after a recompute ends whether or not that recompute succeeded. -/
theorem viableDepSource_false_after_failed_recompute :
    Reachable (ensureDepsUpToDate shortfallEnv
        (setRootDir initialProject "app" [] [] "id")).state ∧
    (ensureDepsUpToDate shortfallEnv
        (setRootDir initialProject "app" [] [] "id")).state.rootDir = some "app" ∧
    (ensureDepsUpToDate shortfallEnv
        (setRootDir initialProject "app" [] [] "id")).state.viableDepSource = false :=
  ⟨Reachable.ensure shortfallEnv (Reachable.rootDir "app" [] [] "id" Reachable.init),
   by decide, by decide⟩

/-- C3 amended: `setRootDir` always leaves `viableDepSource` true; a
recompute that ends without error leaves it true; but a recompute that
throws leaves it false — after a failed recompute the flag stays false even
though the recompute is over, until a later `setRootDir` or successful
recompute raises it again. -/
theorem viableDepSource_recompute_discipline (env : Env) (st : ProjectState) (rel : Release)
    (hrel : env.releaseCurrent = some rel) (hstale : st.depsUpToDate = false) :
    ((ensureDepsUpToDate env st).error = none →
      (ensureDepsUpToDate env st).state.viableDepSource = true) ∧
    ((ensureDepsUpToDate env st).error ≠ none →
      (ensureDepsUpToDate env st).state.viableDepSource = false) ∧
    (∀ (dir appIdOnDisk : String) (cl vl : List String),
      (setRootDir st dir cl vl appIdOnDisk).viableDepSource = true) := by
  have hens : ensureDepsUpToDate env st = ensureStale env rel st := by
    simp [ensureDepsUpToDate, hrel, hstale]
  rw [hens]
  refine ⟨?_, ?_, fun dir appIdOnDisk cl vl => rfl⟩
  · simp only [ensureStale]
    split
    · intro h
      exact absurd h (Option.some_ne_none _)
    · split
      · intro _
        rfl
      · intro h
        exact absurd h (Option.some_ne_none _)
  · simp only [ensureStale]
    split
    · intro _
      rfl
    · split
      · intro h
        exact absurd rfl h
      · intro _
        exact setVersions_state_viable _ _ _ _ _

/-- C3 witness: in the minimal healthy environment a stale fresh project
recomputes without error and ends with `viableDepSource` true. -/
theorem viableDepSource_recompute_discipline_witness :
    (ensureDepsUpToDate envOk initialProject).error = none ∧
    (ensureDepsUpToDate envOk initialProject).state.viableDepSource = true :=
  ⟨rfl,
   (viableDepSource_recompute_discipline envOk initialProject ⟨false, []⟩ rfl rfl).1 rfl⟩

end Meteor
